import Mathlib

/-!
Formal model of the gemini-grs server core (a static Gemini server):
path components and lexical cleaning as used by `resolve_path` in
src/gemini/server.rs (the path-clean crate's algorithm), response
construction and wire encoding (`GeminiResponse`), request URL parsing
(`GeminiUrl::new` in src/gemini/mod.rs), the TLS client-certificate
verification callback (src/gemini/tls.rs), and the listener loop's
dispatch discipline (`start_server`). Filesystem access and external
libraries are modelled explicitly where noted; machine strings are Lean
strings, bytes are `Nat`.
-/

/-- A Unix path component, as in Rust `std::path::Component`
(the Windows-only `Prefix` variant is omitted). -/
inductive PathComp where
  | rootDir
  | curDir
  | parentDir
  | normal (s : String)
deriving DecidableEq, Repr

/-- Split a character list on a separator character. -/
def splitOnChar (sep : Char) : List Char → List (List Char)
  | [] => [[]]
  | c :: cs =>
    let r := splitOnChar sep cs
    if c = sep then [] :: r
    else
      match r with
      | [] => [[c]]
      | g :: gs => (c :: g) :: gs

/-- The components of a path string, following Rust `Path::components` on
Unix: a leading `/` yields `rootDir`, empty segments are dropped, `.`
segments are dropped except as the first component of a relative path, and
`..` is `parentDir`. -/
def parsePath (s : String) : List PathComp :=
  let cs := s.data
  let segs := (splitOnChar '/' cs).filter (fun g => g ≠ [])
  let toComp : List Char → PathComp := fun g =>
    if g = ['.', '.'] then PathComp.parentDir else PathComp.normal (String.mk g)
  if cs.head? = some '/' then
    PathComp.rootDir :: ((segs.filter (fun g => g ≠ ['.'])).map toComp)
  else
    match segs with
    | [] => []
    | g :: rest =>
      (if g = ['.'] then PathComp.curDir else toComp g)
        :: ((rest.filter (fun g => g ≠ ['.'])).map toComp)

/-- One pass of the path-clean crate's `clean` algorithm over components:
`.` is dropped, `..` is dropped just after the root, pops a preceding normal
component, and is kept otherwise. -/
def cleanAux (out : List PathComp) : List PathComp → List PathComp
  | [] => out
  | PathComp.curDir :: rest => cleanAux out rest
  | PathComp.parentDir :: rest =>
    match out.getLast? with
    | some PathComp.rootDir => cleanAux out rest
    | some (PathComp.normal _) => cleanAux out.dropLast rest
    | _ => cleanAux (out ++ [PathComp.parentDir]) rest
  | c :: rest => cleanAux (out ++ [c]) rest

/-- `clean` from the path-clean crate; an empty result is the path `.`. -/
def cleanComps (l : List PathComp) : List PathComp :=
  match cleanAux [] l with
  | [] => [PathComp.curDir]
  | out => out

/-- `PathBuf::push` of a relative path, at the component level: pushed onto a
nonempty path the appended components sit mid-path, so a leading `.` among
them is no longer leading and is dropped. -/
def joinComps (p1 p2 : List PathComp) : List PathComp :=
  match p1 with
  | [] => p2
  | _ => p1 ++ p2.filter (fun c => c ≠ PathComp.curDir)

/-- The `strip_prefix("/")` step of `resolve_path`, applied when the request
path is absolute. -/
def stripRoot (input : String) : List PathComp :=
  match parsePath input with
  | PathComp.rootDir :: rest => rest
  | l => l

/-- The lexically-normalized candidate `root.join(stripped input).clean()`
computed inside `resolve_path`. -/
def candidatePath (root input : String) : List PathComp :=
  cleanComps (joinComps (parsePath root) (stripRoot input))

/-- Rust `Path::starts_with`: component-wise whole-component prefix test. -/
def pathStartsWith (p base : List PathComp) : Bool :=
  List.isPrefixOf base p

/-- `resolve_path` from src/gemini/server.rs: strip a leading separator,
join onto the root, clean lexically, reject when the result does not start
with the root, and append `index.gmi` when the result is an existing
directory (`isDir` is the filesystem oracle). -/
def resolvePath (root input : String) (isDir : List PathComp → Bool) :
    Except String (List PathComp) :=
  if pathStartsWith (candidatePath root input) (parsePath root) then
    if isDir (candidatePath root input) then
      Except.ok (candidatePath root input ++ [PathComp.normal "index.gmi"])
    else
      Except.ok (candidatePath root input)
  else
    Except.error ("Invalid path " ++ input)

theorem isPrefixOf_append_right (a b c : List PathComp)
    (h : List.isPrefixOf a b = true) : List.isPrefixOf a (b ++ c) = true := by
  have h' : a <+: b := by simpa using h
  have h'' : a <+: b ++ c := h'.trans (List.prefix_append b c)
  simpa using h''

/-- C2: for every server root, request path and directory oracle,
`resolve_path` either fails (exactly when the cleaned candidate does not
start with the root) or returns a path that starts with the root; the
`index.gmi` substitution preserves the prefix. -/
theorem resolvePath_confined (root input : String) (isDir : List PathComp → Bool) :
    (∀ p, resolvePath root input isDir = Except.ok p →
      pathStartsWith p (parsePath root) = true)
    ∧ (pathStartsWith (candidatePath root input) (parsePath root) = false →
      ∃ e, resolvePath root input isDir = Except.error e) := by
  constructor
  · intro p hp
    unfold resolvePath at hp
    by_cases hs : pathStartsWith (candidatePath root input) (parsePath root) = true
    · rw [if_pos hs] at hp
      by_cases hd : isDir (candidatePath root input) = true
      · rw [if_pos hd] at hp
        cases hp
        exact isPrefixOf_append_right _ _ _ hs
      · rw [if_neg hd] at hp
        cases hp
        exact hs
    · rw [if_neg hs] at hp
      cases hp
  · intro hs
    refine ⟨"Invalid path " ++ input, ?_⟩
    unfold resolvePath
    rw [if_neg (by simp [hs])]

/-- Witness for C2 at a concrete traversal attempt. -/
theorem resolvePath_confined_witness :
    ∃ e, resolvePath "/srv" "/../etc/passwd" (fun _ => false) = Except.error e :=
  (resolvePath_confined "/srv" "/../etc/passwd" (fun _ => false)).2 (by decide)

/-- Filesystem oracle seen by the server: directory test, regular-file test,
and whole-file read (`read_file_as_bytes`; `none` models a failed read). -/
structure FS where
  isDir : List PathComp → Bool
  isFile : List PathComp → Bool
  read : List PathComp → Option (List Nat)

/-- Rust `Path::file_name`: the last component when it is a normal one. -/
def fileName (p : List PathComp) : Option String :=
  match p.getLast? with
  | some (PathComp.normal s) => some s
  | _ => none

/-- Rust `Path::extension` on a file name: the part after the last `.`,
none when there is no `.` or the only `.` is leading. -/
def extOf (s : String) : Option String :=
  match splitOnChar '.' s.data with
  | [] => none
  | [_] => none
  | first :: rest =>
    if first = [] ∧ rest.length = 1 then none
    else (rest.getLast?).map String.mk

/-- The extension of the path's file name, as `filename.extension()` in
`guess_mime_type`. -/
def pathExt (p : List PathComp) : Option String :=
  (fileName p).bind extOf

/-- `GeminiResponse::guess_mime_type`: the fixed extension→MIME allow-list. -/
def guessMimeType (p : List PathComp) : Option String :=
  match pathExt p with
  | some "gmi" => some "text/gemini"
  | some "jpg" => some "image/jpeg"
  | some "jpeg" => some "image/jpeg"
  | some "png" => some "image/png"
  | _ => none

/-- The response record from src/gemini/server.rs. -/
structure GeminiResponse where
  code : Nat
  mimeType : Option String
  data : Option (List Nat)
deriving DecidableEq, Repr

/-- `GeminiResponse::new`: resolve the path (a resolution failure propagates
as an error), answer 51 with no MIME and no body for a missing file or an
extension outside the allow-list, otherwise read the file and answer 20 with
the mapped MIME type and the file bytes (a failed read propagates as an
error). -/
def GeminiResponse.new (fs : FS) (srvRoot path : String) :
    Except String GeminiResponse :=
  match resolvePath srvRoot path fs.isDir with
  | Except.error e => Except.error e
  | Except.ok filename =>
    if fs.isFile filename then
      match guessMimeType filename with
      | none => Except.ok ⟨51, none, none⟩
      | some m =>
        match fs.read filename with
        | none => Except.error ("Failed to read file " ++ path)
        | some d => Except.ok ⟨20, some m, some d⟩
    else
      Except.ok ⟨51, none, none⟩

/-- The all-empty filesystem. -/
def fsEmpty : FS := ⟨fun _ => false, fun _ => false, fun _ => none⟩

/-- C1 counterexample: at server root `/srv`, the request path
`/../etc/passwd` makes `resolve_path` fail, and `GeminiResponse::new`
propagates that failure as an error instead of producing a status-51
response. -/
theorem new_pathTraversal_counterexample :
    resolvePath "/srv" "/../etc/passwd" fsEmpty.isDir
        = Except.error "Invalid path /../etc/passwd"
    ∧ GeminiResponse.new fsEmpty "/srv" "/../etc/passwd"
        = Except.error "Invalid path /../etc/passwd" := by
  constructor
  · rfl
  · rfl

/-- C1 (amended): a `resolve_path` failure propagates out of
`GeminiResponse::new` as a handler failure (no response); only the
missing-file and disallowed-extension outcomes are folded into a status-51
response. -/
theorem new_error_propagation (fs : FS) (root path : String) :
    ((∃ e, resolvePath root path fs.isDir = Except.error e) →
      ∃ e, GeminiResponse.new fs root path = Except.error e)
    ∧ (∀ p, resolvePath root path fs.isDir = Except.ok p → fs.isFile p = false →
        GeminiResponse.new fs root path = Except.ok ⟨51, none, none⟩)
    ∧ (∀ p, resolvePath root path fs.isDir = Except.ok p → fs.isFile p = true →
        guessMimeType p = none →
        GeminiResponse.new fs root path = Except.ok ⟨51, none, none⟩) := by
  refine ⟨?_, ?_, ?_⟩
  · rintro ⟨e, he⟩
    exact ⟨e, by simp [GeminiResponse.new, he]⟩
  · intro p hp hf
    simp [GeminiResponse.new, hp, hf]
  · intro p hp hf hm
    simp [GeminiResponse.new, hp, hf, hm]

/-- Witness for C1 (amended) at a concrete traversal attempt. -/
theorem new_error_propagation_witness :
    ∃ e, GeminiResponse.new fsEmpty "/srv" "/../etc/passwd" = Except.error e :=
  (new_error_propagation fsEmpty "/srv" "/../etc/passwd").1 ⟨_, rfl⟩

/-- C10: every response `GeminiResponse::new` constructs is either a bare
status-51 response (no MIME, no body) or a status-20 response with both a
MIME type and a body. -/
theorem new_response_invariant (fs : FS) (root path : String)
    (r : GeminiResponse) (h : GeminiResponse.new fs root path = Except.ok r) :
    (r.code = 51 ∧ r.mimeType = none ∧ r.data = none)
    ∨ (r.code = 20 ∧ r.mimeType.isSome = true ∧ r.data.isSome = true) := by
  unfold GeminiResponse.new at h
  split at h
  · cases h
  · split at h
    · split at h
      · cases h
        left
        exact ⟨rfl, rfl, rfl⟩
      · split at h
        · cases h
        · cases h
          right
          exact ⟨rfl, rfl, rfl⟩
    · cases h
      left
      exact ⟨rfl, rfl, rfl⟩

/-- Witness for C10 on a missing file. -/
theorem new_response_invariant_witness :
    ((51 : Nat) = 51 ∧ (none : Option String) = none ∧ (none : Option (List Nat)) = none)
    ∨ ((51 : Nat) = 20 ∧ (none : Option String).isSome = true
        ∧ (none : Option (List Nat)).isSome = true) :=
  new_response_invariant fsEmpty "/srv" "/x" ⟨51, none, none⟩ rfl

theorem guessMimeType_eq_none (p : List PathComp)
    (h1 : pathExt p ≠ some "gmi") (h2 : pathExt p ≠ some "jpg")
    (h3 : pathExt p ≠ some "jpeg") (h4 : pathExt p ≠ some "png") :
    guessMimeType p = none := by
  unfold guessMimeType
  split
  · exact absurd (by assumption) h1
  · exact absurd (by assumption) h2
  · exact absurd (by assumption) h3
  · exact absurd (by assumption) h4
  · rfl

/-- C5: the extension→MIME mapping of the response builder is the exact
allow-list `gmi/jpg/jpeg/png`: a resolved existing file with one of those
extensions is served with status 20, the mapped MIME type and the full file
bytes; any other or absent extension, like a missing file, yields status 51
with no MIME and no body. -/
theorem mime_allowlist :
    (∀ (fs : FS) (root path : String) (p : List PathComp) (d : List Nat),
      resolvePath root path fs.isDir = Except.ok p →
      fs.isFile p = true → fs.read p = some d →
      ((pathExt p = some "gmi" →
          GeminiResponse.new fs root path = Except.ok ⟨20, some "text/gemini", some d⟩)
        ∧ (pathExt p = some "jpg" →
          GeminiResponse.new fs root path = Except.ok ⟨20, some "image/jpeg", some d⟩)
        ∧ (pathExt p = some "jpeg" →
          GeminiResponse.new fs root path = Except.ok ⟨20, some "image/jpeg", some d⟩)
        ∧ (pathExt p = some "png" →
          GeminiResponse.new fs root path = Except.ok ⟨20, some "image/png", some d⟩)))
    ∧ (∀ (fs : FS) (root path : String) (p : List PathComp),
      resolvePath root path fs.isDir = Except.ok p → fs.isFile p = true →
      pathExt p ≠ some "gmi" → pathExt p ≠ some "jpg" →
      pathExt p ≠ some "jpeg" → pathExt p ≠ some "png" →
      GeminiResponse.new fs root path = Except.ok ⟨51, none, none⟩)
    ∧ (∀ (fs : FS) (root path : String) (p : List PathComp),
      resolvePath root path fs.isDir = Except.ok p → fs.isFile p = false →
      GeminiResponse.new fs root path = Except.ok ⟨51, none, none⟩) := by
  refine ⟨?_, ?_, ?_⟩
  · intro fs root path p d hres hFile hread
    refine ⟨?_, ?_, ?_, ?_⟩ <;> intro hext <;>
      simp [GeminiResponse.new, hres, hFile, hread, guessMimeType, hext]
  · intro fs root path p hres hFile h1 h2 h3 h4
    simp [GeminiResponse.new, hres, hFile, guessMimeType_eq_none p h1 h2 h3 h4]
  · intro fs root path p hres hFile
    simp [GeminiResponse.new, hres, hFile]

/-- The single served file of the witness filesystem. -/
def srvFile : List PathComp :=
  [PathComp.rootDir, PathComp.normal "srv", PathComp.normal "a.gmi"]

/-- A filesystem holding exactly the regular file `/srv/a.gmi` with bytes
`[104, 105]`. -/
def fsOne : FS :=
  ⟨fun _ => false, fun p => decide (p = srvFile),
    fun p => if p = srvFile then some [104, 105] else none⟩

/-- Witness for C5: serving `/a.gmi` out of root `/srv`. -/
theorem mime_allowlist_witness :
    GeminiResponse.new fsOne "/srv" "/a.gmi"
      = Except.ok ⟨20, some "text/gemini", some [104, 105]⟩ :=
  (mime_allowlist.1 fsOne "/srv" "/a.gmi" srvFile [104, 105] rfl (by decide) rfl).1 rfl

/-- The fields the server reads off a generically parsed URL. -/
structure RawUrl where
  scheme : String
  host : Option String
  port : Option Nat
  path : String
deriving DecidableEq, Repr

/-- The parsed request URL from src/gemini/mod.rs. -/
structure GeminiUrl where
  scheme : String
  hostname : String
  port : Nat
  path : String
deriving DecidableEq, Repr

/-- First occurrence of a pattern in a character list: the characters before
it and the characters after it. -/
def splitAtSub (pat : List Char) : List Char → Option (List Char × List Char)
  | [] => if pat = [] then some ([], []) else none
  | c :: cs =>
    if List.isPrefixOf pat (c :: cs) then some ([], (c :: cs).drop pat.length)
    else
      match splitAtSub pat cs with
      | some (pre, post) => some (c :: pre, post)
      | none => none

/-- Prepend the default scheme when the request line has no `://`, as
`GeminiUrl::new` does before parsing. -/
def withScheme (input : String) : String :=
  if (splitAtSub [':', '/', '/'] input.data).isSome then input
  else "gemini://" ++ input

/-- Decimal digits to a number. -/
def digitsToNat (l : List Char) : Nat :=
  l.foldl (fun a c => 10 * a + (c.toNat - 48)) 0

/-- Modelled from the spec: "Parse using generic URL syntax rules" — the
`url` crate is an external collaborator, so this models the fragment of
generic URL parsing the server exercises: `scheme://host[:port]/path`, with
the scheme required to start with a letter and lowercased, the authority
ending at the first `/`, a decimal port bounded by 65535, and the remainder
(possibly empty) as the path. Userinfo, queries, fragments, IPv6 hosts and
percent-decoding are outside the modelled fragment. -/
def urlParse (s : String) : Option RawUrl :=
  match splitAtSub [':', '/', '/'] s.data with
  | none => none
  | some (schemeCs, rest) =>
    match schemeCs with
    | [] => none
    | c0 :: _ =>
      if c0.isAlpha
          && schemeCs.all (fun c => c.isAlphanum || c = '+' || c = '-' || c = '.') then
        let scheme := String.mk (schemeCs.map Char.toLower)
        let authCs := rest.takeWhile (fun c => c ≠ '/')
        let pathStr := String.mk (rest.dropWhile (fun c => c ≠ '/'))
        match splitAtSub [':'] authCs with
        | none =>
          if authCs = [] then some ⟨scheme, none, none, pathStr⟩
          else some ⟨scheme, some (String.mk authCs), none, pathStr⟩
        | some (hostCs, portCs) =>
          if hostCs = [] then none
          else if portCs = [] then
            some ⟨scheme, some (String.mk hostCs), none, pathStr⟩
          else if portCs.all Char.isDigit && digitsToNat portCs ≤ 65535 then
            some ⟨scheme, some (String.mk hostCs), some (digitsToNat portCs), pathStr⟩
          else none
      else none

/-- `GeminiUrl::new` from src/gemini/mod.rs, parameterized by the URL
parser: prepend the default scheme when `://` is absent, parse, require
scheme `gemini` and a present host, default the port to 1965 and an empty
path to `/`. -/
def GeminiUrl.newWith (parse : String → Option RawUrl) (input : String) :
    Except String GeminiUrl :=
  match parse (withScheme input) with
  | none => Except.error ("Invalid request URL " ++ withScheme input)
  | some parsed =>
    if parsed.scheme ≠ "gemini" then
      Except.error "Invalid request (URL protocol should be gemini://)"
    else
      match parsed.host with
      | none => Except.error "Invalid request (URL must have a host)"
      | some hostname =>
        let url : GeminiUrl :=
          ⟨parsed.scheme, hostname, parsed.port.getD 1965, parsed.path⟩
        if url.path = "" then Except.ok { url with path := "/" }
        else Except.ok url

/-- `GeminiUrl::new` with the modelled generic URL parser. -/
def GeminiUrl.new (input : String) : Except String GeminiUrl :=
  GeminiUrl.newWith urlParse input

/-- C6: for every parser and input line, `GeminiUrl::new` first prepends the
default scheme when the line has no `://`, then fails exactly when the line
does not parse, the parsed scheme is not `gemini`, or the host is absent;
every successful parse has scheme `gemini`. -/
theorem geminiUrl_new_validation (parse : String → Option RawUrl) (input : String) :
    ((∃ e, GeminiUrl.newWith parse input = Except.error e) ↔
      (parse (withScheme input) = none
        ∨ ∃ r, parse (withScheme input) = some r
            ∧ (r.scheme ≠ "gemini" ∨ r.host = none)))
    ∧ (∀ u, GeminiUrl.newWith parse input = Except.ok u → u.scheme = "gemini") := by
  cases hp : parse (withScheme input) with
  | none =>
    constructor
    · constructor
      · intro _
        exact Or.inl rfl
      · intro _
        exact ⟨"Invalid request URL " ++ withScheme input,
          by simp [GeminiUrl.newWith, hp]⟩
    · intro u hu
      simp [GeminiUrl.newWith, hp] at hu
  | some r =>
    by_cases hsch : r.scheme = "gemini"
    · cases hh : r.host with
      | none =>
        constructor
        · constructor
          · intro _
            exact Or.inr ⟨r, rfl, Or.inr hh⟩
          · intro _
            exact ⟨"Invalid request (URL must have a host)",
              by simp [GeminiUrl.newWith, hp, hsch, hh]⟩
        · intro u hu
          simp [GeminiUrl.newWith, hp, hsch, hh] at hu
      | some host =>
        constructor
        · constructor
          · rintro ⟨e, he⟩
            simp only [GeminiUrl.newWith, hp] at he
            rw [if_neg (by simp [hsch])] at he
            simp only [hh] at he
            split at he <;> exact Except.noConfusion he
          · rintro (h | ⟨r', hr', hbad⟩)
            · exact Option.noConfusion h
            · have hrr : r = r' := Option.some.inj hr'
              subst hrr
              rcases hbad with h | h
              · exact absurd hsch h
              · rw [hh] at h
                exact Option.noConfusion h
        · intro u hu
          simp only [GeminiUrl.newWith, hp] at hu
          rw [if_neg (by simp [hsch])] at hu
          simp only [hh] at hu
          split at hu
          · cases hu
            exact hsch
          · cases hu
            exact hsch
    · constructor
      · constructor
        · intro _
          exact Or.inr ⟨r, rfl, Or.inl hsch⟩
        · intro _
          refine ⟨"Invalid request (URL protocol should be gemini://)", ?_⟩
          simp only [GeminiUrl.newWith, hp]
          rw [if_pos (by simp [hsch])]
      · intro u hu
        simp only [GeminiUrl.newWith, hp] at hu
        rw [if_pos (by simp [hsch])] at hu
        exact Except.noConfusion hu

/-- Witness for C6 on a bare host-and-path request line. -/
theorem geminiUrl_new_validation_witness :
    (⟨"gemini", "example.org", 1965, "/foo.gmi"⟩ : GeminiUrl).scheme = "gemini" :=
  (geminiUrl_new_validation urlParse "example.org/foo.gmi").2
    ⟨"gemini", "example.org", 1965, "/foo.gmi"⟩ rfl

/-- C7: on success the port defaults to 1965 and an empty parsed path
becomes `/`; concretely, `example.org/foo.gmi` parses to host
`example.org`, port 1965 and path `/foo.gmi`. -/
theorem geminiUrl_new_defaults :
    (∀ (parse : String → Option RawUrl) (input : String) (raw : RawUrl)
        (u : GeminiUrl),
      parse (withScheme input) = some raw →
      GeminiUrl.newWith parse input = Except.ok u →
      u.port = raw.port.getD 1965
        ∧ u.path = (if raw.path = "" then "/" else raw.path))
    ∧ GeminiUrl.new "example.org/foo.gmi"
        = Except.ok ⟨"gemini", "example.org", 1965, "/foo.gmi"⟩ := by
  constructor
  · intro parse input raw u hp hu
    simp only [GeminiUrl.newWith, hp] at hu
    by_cases hsch : raw.scheme = "gemini"
    · rw [if_neg (by simp [hsch])] at hu
      cases hh : raw.host with
      | none =>
        simp only [hh] at hu
        exact Except.noConfusion hu
      | some host =>
        simp only [hh] at hu
        by_cases hpath : raw.path = ""
        · rw [if_pos hpath] at hu
          cases hu
          simp [hpath]
        · rw [if_neg hpath] at hu
          cases hu
          simp [hpath]
    · rw [if_pos (by simp [hsch])] at hu
      exact Except.noConfusion hu
  · rfl

/-- Witness for C7 on a bare host with empty parsed path. -/
theorem geminiUrl_new_defaults_witness :
    (⟨"gemini", "example.org", 1965, "/"⟩ : GeminiUrl).port
        = (none : Option Nat).getD 1965
      ∧ (⟨"gemini", "example.org", 1965, "/"⟩ : GeminiUrl).path
        = (if ("" : String) = "" then "/" else "") :=
  geminiUrl_new_defaults.1 urlParse "example.org"
    ⟨"gemini", some "example.org", none, ""⟩
    ⟨"gemini", "example.org", 1965, "/"⟩ rfl rfl

/-- UTF-8 encoding of one scalar value. -/
def utf8EncodeChar (c : Char) : List Nat :=
  let n := c.toNat
  if n < 0x80 then [n]
  else if n < 0x800 then
    [0xC0 + n / 64, 0x80 + n % 64]
  else if n < 0x10000 then
    [0xE0 + n / 4096, 0x80 + (n / 64) % 64, 0x80 + n % 64]
  else
    [0xF0 + n / 262144, 0x80 + (n / 4096) % 64, 0x80 + (n / 64) % 64, 0x80 + n % 64]

/-- UTF-8 encoding of a string, as `String::into_bytes` of a Rust string. -/
def utf8Encode (s : String) : List Nat :=
  (s.data.map utf8EncodeChar).flatten

/-- `GeminiResponse::get_bytes`: the status line (`"<code>\t<mime>\r\n"`
when a MIME type is present, `"<code>\r\n"` otherwise) followed immediately
by the body bytes when present. -/
def GeminiResponse.getBytes (r : GeminiResponse) : List Nat :=
  let header :=
    match r.mimeType with
    | some m => toString r.code ++ "\t" ++ m ++ "\r\n"
    | none => toString r.code ++ "\r\n"
  utf8Encode header ++ (match r.data with | some d => d | none => [])

theorem utf8Encode_append (a b : String) :
    utf8Encode (a ++ b) = utf8Encode a ++ utf8Encode b := by
  simp [utf8Encode, String.data_append]

/-- C8: the wire bytes of a response are exactly the encoded status digits,
then a tab byte and the MIME type when a MIME type is present, then CRLF,
then exactly the body bytes when a body is present — no length prefix and no
further framing; the encoding is a pure function of the response record. -/
theorem getBytes_encoding (c : Nat) (m : String) (d : List Nat) :
    GeminiResponse.getBytes ⟨c, some m, some d⟩
        = utf8Encode (toString c) ++ [9] ++ utf8Encode m ++ [13, 10] ++ d
    ∧ GeminiResponse.getBytes ⟨c, some m, none⟩
        = utf8Encode (toString c) ++ [9] ++ utf8Encode m ++ [13, 10]
    ∧ GeminiResponse.getBytes ⟨c, none, some d⟩
        = utf8Encode (toString c) ++ [13, 10] ++ d
    ∧ GeminiResponse.getBytes ⟨c, none, none⟩
        = utf8Encode (toString c) ++ [13, 10] := by
  have htab : utf8Encode "\t" = [9] := rfl
  have hcrlf : utf8Encode "\r\n" = [13, 10] := rfl
  refine ⟨?_, ?_, ?_, ?_⟩ <;>
    simp [GeminiResponse.getBytes, utf8Encode_append, htab, hcrlf]

/-- Whether a byte is a UTF-8 continuation byte. -/
def isCont (b : Nat) : Bool :=
  decide (0x80 ≤ b ∧ b < 0xC0)

/-- UTF-8 decoding of a byte list into characters (accumulator in reverse
order), as Rust `String::from_utf8`: truncated sequences, overlong
encodings, surrogates and values above U+10FFFF are rejected. -/
def utf8DecodeAux (acc : List Char) : List Nat → Option (List Char)
  | [] => some acc.reverse
  | b :: rest =>
    if b < 0x80 then
      utf8DecodeAux (Char.ofNat b :: acc) rest
    else if b < 0xC2 then none
    else if b < 0xE0 then
      match rest with
      | b2 :: rest2 =>
        if isCont b2 then
          utf8DecodeAux (Char.ofNat ((b - 0xC0) * 64 + (b2 - 0x80)) :: acc) rest2
        else none
      | [] => none
    else if b < 0xF0 then
      match rest with
      | b2 :: b3 :: rest3 =>
        if (isCont b2 && isCont b3)
            && (b != 0xE0 || Nat.ble 0xA0 b2)
            && (b != 0xED || Nat.ble b2 0x9F) then
          utf8DecodeAux
            (Char.ofNat ((b - 0xE0) * 4096 + (b2 - 0x80) * 64 + (b3 - 0x80)) :: acc)
            rest3
        else none
      | _ => none
    else if b < 0xF5 then
      match rest with
      | b2 :: b3 :: b4 :: rest4 =>
        if (isCont b2 && isCont b3 && isCont b4)
            && (b != 0xF0 || Nat.ble 0x90 b2)
            && (b != 0xF4 || Nat.ble b2 0x8F) then
          utf8DecodeAux
            (Char.ofNat ((b - 0xF0) * 262144 + (b2 - 0x80) * 4096
              + (b3 - 0x80) * 64 + (b4 - 0x80)) :: acc)
            rest4
        else none
      | _ => none
    else none

/-- UTF-8 decoding to a string (`String::from_utf8`). -/
def utf8Decode (l : List Nat) : Option String :=
  (utf8DecodeAux [] l).map String.mk

/-- `str::trim` (for the ASCII whitespace the model exercises). -/
def rustTrim (s : String) : String :=
  String.mk (((s.data.dropWhile Char.isWhitespace).reverse.dropWhile
    Char.isWhitespace).reverse)

/-- `handle_gemini_session` from src/gemini/server.rs: a single read into a
1024-byte buffer (modelled as taking the first 1024 request bytes, with the
whole request available), UTF-8 conversion, trim, URL parse, response
construction; each failure aborts the handler with an error and no response
is written. On success the response (whose wire bytes `get_bytes` then
produces) is returned. -/
def handleGeminiSession (fs : FS) (srvRoot : String) (request : List Nat) :
    Except String GeminiResponse :=
  match utf8Decode (request.take 1024) with
  | none => Except.error "Invalid request (failed to convert input to UTF8)"
  | some received =>
    match GeminiUrl.new (rustTrim received) with
    | Except.error e => Except.error e
    | Except.ok url =>
      match GeminiResponse.new fs srvRoot url.path with
      | Except.error e => Except.error e
      | Except.ok r => Except.ok r

/-- C3 (amended): non-UTF-8 bytes among the first 1024 make the handler fail
with no response, and the handler never looks past the first 1024 bytes (no
multi-read reassembly) — but an oversized request is not itself a failure:
it is silently truncated to the first 1024 bytes and processed as if
complete. -/
theorem handle_read_truncation (fs : FS) (root : String) (request : List Nat) :
    (utf8Decode (request.take 1024) = none →
      handleGeminiSession fs root request
        = Except.error "Invalid request (failed to convert input to UTF8)")
    ∧ handleGeminiSession fs root request
        = handleGeminiSession fs root (request.take 1024) := by
  constructor
  · intro h
    simp [handleGeminiSession, h]
  · unfold handleGeminiSession
    rw [List.take_take]
    norm_num

/-- Witness for C3 (amended) on a single invalid byte. -/
theorem handle_read_truncation_witness :
    handleGeminiSession fsEmpty "/srv" [255]
      = Except.error "Invalid request (failed to convert input to UTF8)" :=
  (handle_read_truncation fsEmpty "/srv" [255]).1 rfl

/-- An oversized (1025-byte) but well-formed request line: a 16-byte URL
padded with 1009 trailing spaces. -/
def longRequest : List Nat :=
  utf8Encode "gemini://h/x.gmi" ++ List.replicate 1009 32

set_option maxRecDepth 100000 in
/-- C3 counterexample: a request longer than the 1024-byte buffer is not
treated as a failure: the handler truncates it to the first 1024 bytes and
still produces a structured response (here a status-51 response). -/
theorem handle_oversize_counterexample :
    longRequest.length = 1025
    ∧ handleGeminiSession fsEmpty "/srv" longRequest
        = Except.ok ⟨51, none, none⟩ := by
  constructor
  · rfl
  · rfl

/-- The client-certificate data the verification callback inspects
(src/gemini/tls.rs): DER encodings of the issuer and subject distinguished
names (`none` models a failed conversion), public-key retrieval success,
whether the certificate's signature verifies against its own embedded key,
and the validity window over abstract integer times. -/
structure ClientCert where
  issuerDer : Option (List Nat)
  subjectDer : Option (List Nat)
  pubKeyOk : Bool
  verifySig : Bool
  notBefore : Int
  notAfter : Int

/-- The custom verification callback installed by `create_tls_acceptor`:
certificates passing standard chain validation (`preverifyOk`) are accepted
outright; otherwise the certificate must be present, its issuer DER must
equal its subject DER, its public key must be retrievable, its signature
must verify against that key, and the current time (`now? = none` models
`Asn1Time::days_from_now` failing) must lie in the validity window. -/
def verifyCallback (preverifyOk : Bool) (cert? : Option ClientCert)
    (now? : Option Int) : Bool :=
  if preverifyOk then true
  else
    match cert? with
    | none => false
    | some cert =>
      match cert.issuerDer, cert.subjectDer with
      | some issuer, some subject =>
        if issuer = subject then
          if cert.pubKeyOk then
            if cert.verifySig then
              match now? with
              | none => false
              | some now =>
                decide (cert.notBefore ≤ now ∧ now ≤ cert.notAfter)
            else false
          else false
        else false
      | _, _ => false

/-- C4: when standard chain validation fails, a certificate whose name
conversions and key retrieval succeed is accepted iff its issuer DER equals
its subject DER, its self-signature verifies, and the current time lies in
its validity window; an absent certificate is rejected; a chain-validated
certificate is always accepted. -/
theorem verifyCallback_selfSignedPolicy (cert : ClientCert) (now : Int)
    (i s : List Nat) (hi : cert.issuerDer = some i) (hs : cert.subjectDer = some s)
    (hk : cert.pubKeyOk = true) :
    (verifyCallback false (some cert) (some now) = true ↔
      (i = s ∧ cert.verifySig = true ∧ cert.notBefore ≤ now ∧ now ≤ cert.notAfter))
    ∧ verifyCallback false none (some now) = false
    ∧ verifyCallback true (some cert) (some now) = true := by
  refine ⟨?_, rfl, rfl⟩
  by_cases hiss : i = s <;>
    cases hsig : cert.verifySig <;>
      simp [verifyCallback, hi, hs, hk, hiss, hsig, and_assoc]

/-- A concrete accepted self-signed certificate. -/
def certSelf : ClientCert := ⟨some [1], some [1], true, true, 0, 10⟩

/-- Witness for C4: the policy accepts `certSelf` at time 5. -/
theorem verifyCallback_selfSignedPolicy_witness :
    verifyCallback false (some certSelf) (some 5) = true :=
  ((verifyCallback_selfSignedPolicy certSelf 5 [1] [1] rfl rfl rfl).1).mpr
    (by decide)

/-- Listener phase: ready to accept, or blocked in `handle.join()` on the
handler with the given identifier. -/
inductive LoopPhase where
  | accepting
  | joining (h : Nat)
deriving DecidableEq, Repr

/-- State of `start_server`'s dispatch: the loop phase, the identifiers of
handler threads spawned and not yet finished, and a fresh-identifier
counter. -/
structure ListenerState where
  phase : LoopPhase
  running : List Nat
  nextId : Nat
deriving DecidableEq, Repr

/-- Initial listener state: about to accept, no handler running. -/
def listenerInit : ListenerState := ⟨LoopPhase.accepting, [], 0⟩

/-- Steps of the listener loop and of handler threads, following
`start_server`: accepting a connection spawns a handler thread and the loop
immediately enters `handle.join()` on it; a running handler may finish at
any time; `join` returns only once the joined handler is no longer
running. -/
inductive ListenerStep : ListenerState → ListenerState → Prop where
  | accept (s : ListenerState) (h : s.phase = LoopPhase.accepting) :
      ListenerStep s ⟨LoopPhase.joining s.nextId, s.nextId :: s.running, s.nextId + 1⟩
  | finish (s : ListenerState) (t : Nat) (h : t ∈ s.running) :
      ListenerStep s ⟨s.phase, s.running.erase t, s.nextId⟩
  | joinRet (s : ListenerState) (t : Nat) (hph : s.phase = LoopPhase.joining t)
      (hdone : t ∉ s.running) :
      ListenerStep s ⟨LoopPhase.accepting, s.running, s.nextId⟩

/-- Reachability from the initial listener state. -/
def ListenerReachable (s : ListenerState) : Prop :=
  Relation.ReflTransGen ListenerStep listenerInit s

/-- The listener invariant: while accepting nothing runs, and while joined
on `t` at most `t` runs. -/
def listenerInv (s : ListenerState) : Prop :=
  (s.phase = LoopPhase.accepting → s.running = [])
  ∧ (∀ t, s.phase = LoopPhase.joining t → s.running = [] ∨ s.running = [t])

theorem listenerInv_init : listenerInv listenerInit := by
  constructor
  · intro _
    rfl
  · intro t ht
    cases ht

theorem listenerInv_step (s s' : ListenerState) (hinv : listenerInv s)
    (hstep : ListenerStep s s') : listenerInv s' := by
  cases hstep with
  | accept h =>
    have hrun : s.running = [] := hinv.1 h
    constructor
    · intro hph
      exact absurd hph (by simp)
    · intro t ht
      have hts : s.nextId = t := by simpa using ht
      subst hts
      right
      show s.nextId :: s.running = [s.nextId]
      rw [hrun]
  | finish t h =>
    constructor
    · intro hph
      have hrun : s.running = [] := hinv.1 hph
      show s.running.erase t = []
      simp [hrun]
    · intro t' ht'
      rcases hinv.2 t' ht' with hr | hr
      · left
        show s.running.erase t = []
        simp [hr]
      · by_cases hte : t = t'
        · subst hte
          left
          show s.running.erase t = []
          simp [hr]
        · right
          have hte' : t' ≠ t := fun hh => hte hh.symm
          show s.running.erase t = [t']
          simp [hr, List.erase_cons, hte']
  | joinRet t hph hdone =>
    have hrun : s.running = [] := by
      rcases hinv.2 t hph with hr | hr
      · exact hr
      · rw [hr] at hdone
        exact absurd (List.mem_singleton.mpr rfl) hdone
    constructor
    · intro _
      exact hrun
    · intro t' ht'
      exact absurd ht' (by simp)

theorem listenerInv_reachable (s : ListenerState) (h : ListenerReachable s) :
    listenerInv s := by
  induction h with
  | refl => exact listenerInv_init
  | tail _ hstep ih => exact listenerInv_step _ _ ih hstep

/-- C9: in every reachable state of the listener model at most one handler
thread is running: the loop joins each spawned handler before accepting the
next connection, so no two connection handlers execute concurrently. -/
theorem listener_serializes_handlers (s : ListenerState)
    (h : ListenerReachable s) : s.running.length ≤ 1 := by
  have hinv := listenerInv_reachable s h
  cases hph : s.phase with
  | accepting =>
    rw [hinv.1 hph]
    simp
  | joining t =>
    rcases hinv.2 t hph with hr | hr <;> rw [hr] <;> simp

/-- Witness for C9 at the initial state. -/
theorem listener_serializes_handlers_witness :
    listenerInit.running.length ≤ 1 :=
  listener_serializes_handlers listenerInit Relation.ReflTransGen.refl
